import Mathlib

/-!
Verification of the photon-ALP jet conversion code (`conversion_Jet.py`,
class `PhotALPs_Jet`).  The definitions below are shallow embeddings of the
functions and method bodies of the source file; machine floats are modelled
as real numbers, numpy arrays as Lean lists indexed in the same order, and
complex 3x3 numpy matrices as `Matrix (Fin 3) (Fin 3) ℂ`.
-/

open scoped BigOperators

noncomputable section

/-- Embedding of `numpy.linspace(a, b, num)` (endpoint included, the numpy
default used throughout the source): `num = 0` gives the empty array,
`num = 1` gives `[a]`, and for `num ≥ 2` entry `i` is
`a + (b - a) * i / (num - 1)`. -/
def linspace (a b : ℝ) : ℕ → List ℝ
  | 0 => []
  | 1 => [a]
  | (m + 2) => (List.range (m + 2)).map (fun i : ℕ => a + (b - a) * (i : ℝ) / ((m : ℝ) + 1))

/-- Embedding of `update_params` line 119:
`Nd = ceil(-1. * p * log(Rmax / R_BLR) / log(sens))`, the number of magnetic
domains, as `math.ceil` of the real-valued expression. -/
def Nd (p R_BLR Rmax sens : ℝ) : ℤ :=
  ⌈-p * Real.log (Rmax / R_BLR) / Real.log sens⌉

/-- Embedding of `update_params` line 120:
`Lcoh = R_BLR * sens ** (-linspace(1., Nd, Nd) / p) * (1. - sens)`, the array
of per-domain coherence lengths (`n` is the domain count `Nd`). -/
def Lcoh_list (R_BLR sens p : ℝ) (n : ℕ) : List ℝ :=
  (linspace 1 (n : ℝ) n).map (fun t => R_BLR * sens ^ (-t / p) * (1 - sens))

/-- Embedding of `update_params` line 121:
`r = R_BLR * sens ** (-linspace(0., Nd, Nd) / p)`, the array of domain radii
(`n` is the domain count `Nd`).  Note the source passes `Nd` both as the stop
value and as the number of samples of `linspace`. -/
def r_list (R_BLR sens p : ℝ) (n : ℕ) : List ℝ :=
  (linspace 0 (n : ℝ) n).map (fun t => R_BLR * sens ^ (-t / p))

/-- Embedding of the domain-grid part of `update_params` (lines 119-121) on
configurations whose Python float intermediates are finite (`0 < sens ≠ 1`,
`0 < Rmax / R_BLR`), where `Real.log` agrees with `np.log`.  The source
performs no configuration validation of its own; the only exception numpy
raises on this region is `np.linspace`'s generic `ValueError` when the
computed `Nd` is negative, modelled as the error case. -/
def updateParamsGrid (p R_BLR Rmax sens : ℝ) : Except String (ℤ × List ℝ × List ℝ) :=
  let nd := Nd p R_BLR Rmax sens
  if nd < 0 then
    Except.error "ValueError: Number of samples must be non-negative"
  else
    Except.ok (nd, Lcoh_list R_BLR sens p nd.toNat, r_list R_BLR sens p nd.toNat)

/-- Model of a numpy float value: an exact real, a signed infinity (as
produced by dividing a nonzero float by zero, with only a runtime warning),
or NaN (as produced by `0.0/0.0`). -/
inductive PyFloat where
  | fin (x : ℝ)
  | pinf
  | ninf
  | nan

/-- Model of the numpy float division `x / y` of finite operands: the usual
quotient when `y ≠ 0`; when `y = 0` (the divisor `Dpar - Da` is the exact
`+0.0` in the degenerate case, since `x - x = +0.0` for finite floats) the
result is `+inf`, `-inf` or NaN according to the sign of the numerator, with
no exception raised. -/
def pyDiv (x y : ℝ) : PyFloat :=
  if y = 0 then
    (if 0 < x then PyFloat.pinf else if x < 0 then PyFloat.ninf else PyFloat.nan)
  else PyFloat.fin (x / y)

/-- Model of `np.arctan` on a numpy float value: `arctan(±inf) = ±pi/2`
per IEEE semantics, and NaN propagates. -/
def pyArctan : PyFloat → PyFloat
  | PyFloat.fin x => PyFloat.fin (Real.arctan x)
  | PyFloat.pinf => PyFloat.fin (Real.pi / 2)
  | PyFloat.ninf => PyFloat.fin (-(Real.pi / 2))
  | PyFloat.nan => PyFloat.nan

/-- Multiplication of a numpy float value by the positive constant `0.5`. -/
def pyHalf : PyFloat → PyFloat
  | PyFloat.fin x => PyFloat.fin (0.5 * x)
  | PyFloat.pinf => PyFloat.pinf
  | PyFloat.ninf => PyFloat.ninf
  | PyFloat.nan => PyFloat.nan

/-- Embedding of `__setDeltas` line 152, the per-domain mixing angle
`alph = 0.5 * arctan(2. * Dag / (Dpar - Da))`, as a function of the scalar
per-domain quantities `Dag`, `Dpar`, `Da`.  The division is exactly the
source's unguarded one, modelled with numpy's zero-division semantics. -/
def alphOf (Dag Dpar Da : ℝ) : PyFloat :=
  pyHalf (pyArctan (pyDiv (2 * Dag) (Dpar - Da)))

/-- Embedding of `__setDeltas` line 153, the per-domain oscillation scale
`Dosc = sqrt((Dpar - Da)**2. + 4. * Dag**2.)`. -/
def DoscOf (Dpar Da Dag : ℝ) : ℝ :=
  Real.sqrt ((Dpar - Da) ^ 2 + 4 * Dag ^ 2)

/-- Embedding of `__setEW` line 172, eigenvalue `EW2 = 0.5 * (Dpar + Da - Dosc)`. -/
def EW2Of (Dpar Da Dag : ℝ) : ℝ :=
  0.5 * (Dpar + Da - DoscOf Dpar Da Dag)

/-- Embedding of `__setEW` line 173, eigenvalue `EW3 = 0.5 * (Dpar + Da + Dosc)`. -/
def EW3Of (Dpar Da Dag : ℝ) : ℝ :=
  0.5 * (Dpar + Da + DoscOf Dpar Da Dag)

/-- Embedding of `__setT1n` (lines 177-195) for one domain: the complex 3x3
matrix `T1` as a function of `Psi`.  Entry `(0,0)` is assigned `c * c`
(line 191); the assignment to `(0,1)` is commented out in the source, so
`(0,1)`, `(0,2)`, hence also `(1,0)` (copied from `(0,1)`), and the whole
third row stay at the `np.zeros` default. -/
def T1mat (Psi : ℝ) : Matrix (Fin 3) (Fin 3) ℂ :=
  Matrix.of ![![((Real.cos Psi * Real.cos Psi : ℝ) : ℂ), 0, 0],
              ![0, ((Real.sin Psi * Real.sin Psi : ℝ) : ℂ), 0],
              ![0, 0, 0]]

/-- Embedding of `__setT2n` (lines 197-224) for one domain: the complex 3x3
matrix `T2` as a function of `Psi` and the mixing angle `alph`.  The three
top-row assignments are commented out in the source, so the top row (and the
`(1,0)`, `(2,0)` entries copied from it) stay at the zeros default. -/
def T2mat (Psi alph : ℝ) : Matrix (Fin 3) (Fin 3) ℂ :=
  Matrix.of ![![0, 0, 0],
              ![0, ((Real.cos Psi * Real.cos Psi * Real.sin alph * Real.sin alph : ℝ) : ℂ),
               ((-1 * Real.cos Psi * Real.cos alph * Real.sin alph : ℝ) : ℂ)],
              ![0, ((-1 * Real.cos Psi * Real.cos alph * Real.sin alph : ℝ) : ℂ),
               ((Real.cos alph * Real.cos alph : ℝ) : ℂ)]]

/-- Embedding of `__setT3n` (lines 226-253) for one domain: the complex 3x3
matrix `T3` as a function of `Psi` and the mixing angle `alph`.  As with
`T2`, the top-row assignments are commented out in the source. -/
def T3mat (Psi alph : ℝ) : Matrix (Fin 3) (Fin 3) ℂ :=
  Matrix.of ![![0, 0, 0],
              ![0, ((Real.cos Psi * Real.cos Psi * Real.cos alph * Real.cos alph : ℝ) : ℂ),
               ((Real.cos Psi * Real.sin alph * Real.cos alph : ℝ) : ℂ)],
              ![0, ((Real.cos Psi * Real.sin alph * Real.cos alph : ℝ) : ℂ),
               ((Real.sin alph * Real.sin alph : ℝ) : ℂ)]]

/-- The type of one domain propagator: a 3x3 complex matrix. -/
abbrev Mat3 := Matrix (Fin 3) (Fin 3) ℂ

/-- Embedding of the composition loop of `SetDomainN` (lines 288-292): `U`
starts as `Un[:,:,0]` and each further domain is multiplied on the right,
`U = np.dot(U, Un[:,:,i])`.  For an empty domain list the loop body never
runs and `return U` would raise `NameError` in Python; that case is `none`. -/
def chainCompose (Un : List Mat3) : Option Mat3 :=
  match Un with
  | [] => none
  | U0 :: rest => some (rest.foldl (fun U V => U * V) U0)

/-- State of a `PhotALPs_Jet` object: the configuration attributes set by
`update_params` together with the derived grid attributes. -/
structure PhotALPs_Jet where
  B : ℝ
  R_BLR : ℝ
  Rmax : ℝ
  p : ℝ
  s : ℝ
  g : ℝ
  m : ℝ
  E : ℝ
  n : ℝ
  sens : ℝ
  Psi : ℝ
  NdAttr : ℤ
  LcohAttr : List ℝ
  rAttr : List ℝ

/-- Embedding of the closure `self.Bf` (line 116):
`Bf(r) = B * (r / R_BLR) ** -p`. -/
def Bf (st : PhotALPs_Jet) (r : ℝ) : ℝ :=
  st.B * (r / st.R_BLR) ^ (-st.p)

/-- Embedding of the method `analytical_U` (lines 295-313).  The external
collaborator `Delta_ag_kpc` (imported from the `deltas` module, not part of
this repository) is passed as the pure function `f_ag` per its spec contract
`f_ag(coupling, field) -> coupling_term`.  The method body only reads
attributes and assigns the local matrix `U`, so its state-transformer
embedding returns the input state together with the fresh matrix. -/
def analytical_U (f_ag : ℝ → ℝ → ℝ) (st : PhotALPs_Jet) : PhotALPs_Jet × Mat3 :=
  let x : ℝ := 1e-3 * f_ag st.g (Bf st st.Rmax * 1e6) *
    (st.Rmax / st.R_BLR) ^ st.p * st.R_BLR * Real.log (st.Rmax / st.R_BLR)
  (st, Matrix.of ![![1, 0, 0],
                   ![0, ((Real.cos x : ℝ) : ℂ), Complex.I * ((Real.sin x : ℝ) : ℂ)],
                   ![0, Complex.I * ((Real.sin x : ℝ) : ℂ), ((Real.cos x : ℝ) : ℂ)]])

/-- Concrete matrix with a single 1 entry at `(0,0)`, used as a sample
domain propagator. -/
def E00 : Mat3 :=
  Matrix.of ![![1, 0, 0], ![0, 0, 0], ![0, 0, 0]]

/-- Concrete matrix with a single 1 entry at `(0,1)`, used as a sample
domain propagator. -/
def E01 : Mat3 :=
  Matrix.of ![![0, 1, 0], ![0, 0, 0], ![0, 0, 0]]

end

/-- Claim C8: for every domain and all real-valued collaborator outputs,
`Dosc = sqrt((Dpar - Da)^2 + 4*Dag^2)` is nonnegative and consequently the
eigenvalues satisfy `EW2 = 0.5*(Dpar + Da - Dosc) ≤ EW3 = 0.5*(Dpar + Da + Dosc)`. -/
theorem Dosc_nonneg_and_EW2_le_EW3 (Dpar Da Dag : ℝ) :
    0 ≤ DoscOf Dpar Da Dag ∧ EW2Of Dpar Da Dag ≤ EW3Of Dpar Da Dag := by
  have h : 0 ≤ DoscOf Dpar Da Dag := Real.sqrt_nonneg _
  refine ⟨h, ?_⟩
  unfold EW2Of EW3Of
  linarith

/-- Claim C6 counterexample: at the concrete degenerate input `Dag = 0`,
`Dpar = Da = 2` (reachable, e.g. with coupling `g = 0`), the mixing-angle
computation performs the unguarded division `0.0/0.0`, and the resulting NaN
silently propagates through `arctan` into `alph` with no error raised —
refuting the claim that the evaluator explicitly detects and handles the
degenerate case rather than silently propagating NaN/Inf into the result. -/
theorem alphOf_degenerate_counterexample : alphOf 0 2 2 = PyFloat.nan := by
  simp [alphOf, pyDiv, pyArctan, pyHalf]

/-- Claim C6 (amended): whenever `Dpar = Da`, the evaluator performs the
division `2*Dag/(Dpar - Da)` unguarded, with no explicit detection or
special-case branch: for `Dag ≠ 0` the silently produced intermediate
`±inf` is mapped by `arctan` to `±pi/2`, so `alph` lands on the finite
limiting value `±pi/4` by IEEE semantics alone, and for `Dag = 0` the NaN
from `0.0/0.0` silently propagates into `alph`. -/
theorem alphOf_degenerate (Dag Dpar Da : ℝ) (h : Dpar = Da) :
    alphOf Dag Dpar Da =
      if 0 < Dag then PyFloat.fin (Real.pi / 4)
      else if Dag < 0 then PyFloat.fin (-(Real.pi / 4))
      else PyFloat.nan := by
  have h2 : Dpar - Da = 0 := by rw [h, sub_self]
  rcases lt_trichotomy Dag 0 with hneg | hzero | hpos
  · have hx : ¬ (0 < 2 * Dag) := by linarith
    have hx2 : 2 * Dag < 0 := by linarith
    simp only [alphOf, pyDiv, h2, if_pos rfl, if_neg hx, if_pos hx2, pyArctan, pyHalf]
    rw [if_neg (by linarith : ¬ 0 < Dag), if_pos hneg]
    norm_num
    ring
  · simp only [alphOf, pyDiv, h2, hzero, if_pos rfl]
    norm_num [pyArctan, pyHalf]
  · have hx : 0 < 2 * Dag := by linarith
    simp only [alphOf, pyDiv, h2, if_pos rfl, if_pos hx, pyArctan, pyHalf]
    rw [if_pos hpos]
    norm_num
    ring

/-- Claim C6 witness: the amended theorem applied at the concrete degenerate
input `Dag = 1`, `Dpar = Da = 5`, where the unguarded division yields `+inf`
and `alph` lands on the finite value `pi/4` with no handling involved. -/
theorem alphOf_degenerate_witness : alphOf 1 5 5 = PyFloat.fin (Real.pi / 4) := by
  rw [alphOf_degenerate 1 5 5 rfl]
  norm_num

/-- Claim C10: `analytical_U` leaves every attribute of the object unchanged:
it only reads the configuration and returns a freshly built 3x3 complex
matrix, mutating no state. -/
theorem analytical_U_preserves_state (f_ag : ℝ → ℝ → ℝ) (st : PhotALPs_Jet) :
    (analytical_U f_ag st).1 = st := by
  rfl

/-- Claim C9: if `Psi = 0`, then for every domain (i.e. every value of the
mixing angle `alph`) the three matrices built by the propagator builder sum
to the 3x3 identity, even though the top-row entries of `T2` and `T3` are
left at their zero default. -/
theorem T_sum_eq_one_of_Psi_zero (alph : ℝ) :
    T1mat 0 + T2mat 0 alph + T3mat 0 alph = 1 := by
  ext i j
  fin_cases i <;> fin_cases j <;>
    simp [T1mat, T2mat, T3mat, Matrix.add_apply, Matrix.one_apply,
      Matrix.vecHead, Matrix.vecTail]
  all_goals try ring1
  all_goals linear_combination (Complex.sin_sq_add_cos_sq (alph : ℂ))

/-- Claim C3 counterexample: at `Psi = 0` the `(0,0)` entry of `T1` equals 1,
not 0 — line 191 of the source assigns `T1[0,0,:] = c*c` — so the claim that
the `(0,0)` entry of each of `T1`, `T2`, `T3` is never assigned and stays at
its zero default is false for `T1`. -/
theorem T1_entry00_counterexample : T1mat 0 0 0 ≠ 0 := by
  simp [T1mat]

/-- Claim C3 (amended): for every domain, the `(0,1)` and `(0,2)` entries of
`T1` and all three top-row entries `(0,0)`, `(0,1)`, `(0,2)` of `T2` and `T3`
are never assigned and remain at their zero default, while `T1`'s `(0,0)`
entry is assigned the value `cos(Psi)^2`. -/
theorem T_top_row_zero (Psi alph : ℝ) :
    T1mat Psi 0 1 = 0 ∧ T1mat Psi 0 2 = 0 ∧
    (∀ j : Fin 3, T2mat Psi alph 0 j = 0) ∧
    (∀ j : Fin 3, T3mat Psi alph 0 j = 0) ∧
    T1mat Psi 0 0 = ((Real.cos Psi * Real.cos Psi : ℝ) : ℂ) := by
  refine ⟨rfl, rfl, ?_, ?_, rfl⟩ <;>
    intro j <;> fin_cases j <;> simp [T2mat, T3mat]

/-- Folding multiplication from the left over a list, starting at `h`, gives
`h` times the ordered product of the list. -/
theorem foldl_mul_eq_mul_prod {M : Type} [Monoid M] (t : List M) (h : M) :
    t.foldl (fun U V => U * V) h = h * t.prod := by
  induction t generalizing h with
  | nil => simp
  | cons a t ih => simp [List.prod_cons, ih, mul_assoc]

/-- Claim C1 counterexample: for the concrete two-domain propagator sequence
`[E00, E01]`, the composition loop of `SetDomainN` returns `E00 * E01`
(innermost domain leftmost), which differs from the product
`E01 * E00` in reversed order that the claim prescribes (innermost domain
rightmost). -/
theorem chainCompose_counterexample : chainCompose [E00, E01] ≠ some (E01 * E00) := by
  intro h
  have h2 : E00 * E01 = E01 * E00 := by
    simpa [chainCompose] using h
  have h3 := congrFun (congrFun h2 0) 1
  simp [E00, E01, Matrix.mul_apply, Fin.sum_univ_three] at h3

/-- Claim C1 (amended): for every configuration yielding `Nd ≥ 1` domains
(a nonempty propagator sequence), the composition loop of `SetDomainN`
returns the matrix product `Un[0] * Un[1] * ... * Un[Nd-1]` — the propagator
of the innermost domain (the one at `R_BLR`) stands leftmost in the
matrix-multiplication order, as the source comment `first matrix on the
left` states. -/
theorem chainCompose_eq_prod (l : List Mat3) (h : l ≠ []) :
    chainCompose l = some l.prod := by
  match l, h with
  | U0 :: rest, _ =>
    simp only [chainCompose, List.prod_cons]
    rw [foldl_mul_eq_mul_prod]

/-- Claim C1 witness: the amended theorem applied to the concrete nonempty
propagator sequence `[E00, E01]`. -/
theorem chainCompose_eq_prod_witness :
    ([E00, E01] : List Mat3) ≠ [] ∧ chainCompose [E00, E01] = some ([E00, E01] : List Mat3).prod :=
  ⟨by simp, chainCompose_eq_prod [E00, E01] (by simp)⟩

/-- Claim C2 counterexample: at the concrete invalid configuration
`p = 1, R_BLR = 1, Rmax = 1, sens = 1/2` (violating `Rmax > R_BLR`), the
grid computation of `update_params` completes without any error and silently
produces the domain count `Nd = 0` with empty domain arrays, refuting the
claim that it fails fast with a descriptive error. -/
theorem updateParamsGrid_silent_zero_counterexample :
    updateParamsGrid 1 1 1 (1/2) = Except.ok (0, [], []) := by
  have hNd : Nd 1 1 1 (1/2) = 0 := by
    simp [Nd]
  simp only [updateParamsGrid, hNd]
  norm_num [Lcoh_list, r_list, linspace]

/-- Claim C2 (amended): `update_params` performs no configuration validation:
for every configuration with `Rmax = R_BLR` (and `0 < sens < 1`, positive
radius) the grid computation silently returns the zero domain count `Nd = 0`
and empty coherence-length and radius arrays instead of failing with a
descriptive error; for `Rmax < R_BLR` with negative computed `Nd` the only
failure is numpy's generic `linspace` ValueError. -/
theorem updateParamsGrid_no_validation (p R_BLR sens : ℝ)
    (hR : 0 < R_BLR) (_hs0 : 0 < sens) (_hs1 : sens < 1) :
    updateParamsGrid p R_BLR R_BLR sens = Except.ok (0, [], []) := by
  have hNd : Nd p R_BLR R_BLR sens = 0 := by
    simp [Nd, div_self (ne_of_gt hR)]
  simp only [updateParamsGrid, hNd]
  norm_num [Lcoh_list, r_list, linspace]

/-- Claim C2 witness: the amended theorem applied at the concrete
configuration `p = 2, R_BLR = 3 = Rmax, sens = 1/2`. -/
theorem updateParamsGrid_no_validation_witness :
    updateParamsGrid 2 3 3 (1/2) = Except.ok (0, [], []) :=
  updateParamsGrid_no_validation 2 3 (1/2) (by norm_num) (by norm_num) (by norm_num)

/-- Claim C7 counterexample: with `p = 1`, `sens = 1/4`, `R_BLR = 1` fixed,
increasing `Rmax` (hence the ratio `Rmax/R_BLR`) from 2 to 3 leaves the
domain count at `Nd = 1` in both cases, refuting strict monotonicity. -/
theorem Nd_not_strictly_monotone_counterexample :
    Nd 1 1 2 (1/4) = 1 ∧ Nd 1 1 3 (1/4) = 1 ∧
    ¬ Nd 1 1 2 (1/4) < Nd 1 1 3 (1/4) := by
  have hlog4 : Real.log (1/4 : ℝ) = -(2 * Real.log 2) := by
    rw [one_div, Real.log_inv, show (4:ℝ) = 2 ^ 2 by norm_num, Real.log_pow]
    push_cast
    ring
  have hl2 : (0:ℝ) < Real.log 2 := Real.log_pos (by norm_num)
  have h2 : Nd 1 1 2 (1/4) = 1 := by
    have hval : (-1 * Real.log ((2:ℝ) / 1) / Real.log (1/4 : ℝ)) = 1/2 := by
      rw [show ((2:ℝ)/1) = 2 by norm_num, hlog4]
      field_simp
      ring
    unfold Nd
    rw [hval]
    rw [Int.ceil_eq_iff]
    constructor <;> norm_num
  have h3 : Nd 1 1 3 (1/4) = 1 := by
    have hl3 : (0:ℝ) < Real.log 3 := Real.log_pos (by norm_num)
    have hval : (-1 * Real.log ((3:ℝ) / 1) / Real.log (1/4 : ℝ)) =
        Real.log 3 / (2 * Real.log 2) := by
      rw [show ((3:ℝ)/1) = 3 by norm_num, hlog4]
      field_simp
    have hle : Real.log 3 / (2 * Real.log 2) ≤ 1 := by
      rw [div_le_one (by linarith)]
      have h34 : Real.log 3 ≤ Real.log 4 := Real.log_le_log (by norm_num) (by norm_num)
      have h4eq : Real.log (4:ℝ) = 2 * Real.log 2 := by
        rw [show (4:ℝ) = 2 ^ 2 by norm_num, Real.log_pow]
        push_cast
        ring
      linarith
    have hpos : 0 < Real.log 3 / (2 * Real.log 2) := by positivity
    unfold Nd
    rw [hval, Int.ceil_eq_iff]
    constructor
    · push_cast
      linarith
    · push_cast
      linarith
  exact ⟨h2, h3, by rw [h2, h3]; omega⟩

/-- Claim C7 (amended): for fixed `p > 0` and `0 < sens < 1`, the domain
count `Nd = ceil(-p * log(Rmax/R_BLR) / log(sens))` is monotone
non-decreasing (not strictly increasing) in the ratio `Rmax/R_BLR`:
if `Rmax1 ≤ Rmax2` then `Nd(Rmax1) ≤ Nd(Rmax2)`. -/
theorem Nd_monotone (p R_BLR Rmax1 Rmax2 sens : ℝ)
    (hp : 0 < p) (hR : 0 < R_BLR) (h1 : 0 < Rmax1) (h12 : Rmax1 ≤ Rmax2)
    (hs0 : 0 < sens) (hs1 : sens < 1) :
    Nd p R_BLR Rmax1 sens ≤ Nd p R_BLR Rmax2 sens := by
  unfold Nd
  apply Int.ceil_le_ceil
  have hc : Real.log sens < 0 := Real.log_neg hs0 hs1
  have hinv : (Real.log sens)⁻¹ ≤ 0 := le_of_lt (inv_neg''.mpr hc)
  have hlog : Real.log (Rmax1 / R_BLR) ≤ Real.log (Rmax2 / R_BLR) :=
    Real.log_le_log (div_pos h1 hR) (div_le_div_of_nonneg_right h12 hR.le)
  have hnum : -p * Real.log (Rmax2 / R_BLR) ≤ -p * Real.log (Rmax1 / R_BLR) := by
    nlinarith
  rw [div_eq_mul_inv, div_eq_mul_inv]
  exact mul_le_mul_of_nonpos_right hnum hinv

/-- Claim C7 witness: the amended theorem applied at the concrete inputs
`p = 1, R_BLR = 1, Rmax1 = 2, Rmax2 = 3, sens = 1/2`. -/
theorem Nd_monotone_witness : Nd 1 1 2 (1/2) ≤ Nd 1 1 3 (1/2) :=
  Nd_monotone 1 1 2 3 (1/2) (by norm_num) (by norm_num) (by norm_num)
    (by norm_num) (by norm_num) (by norm_num)

/-- The embedded `numpy.linspace` always returns exactly `num` samples. -/
theorem linspace_length (a b : ℝ) (num : ℕ) : (linspace a b num).length = num := by
  match num with
  | 0 => rfl
  | 1 => rfl
  | (m + 2) => simp only [linspace, List.length_map, List.length_range]

/-- At the concrete configuration `p = 2, R_BLR = 1, Rmax = 4, sens = 1/4`
the source computes the domain count `Nd = ceil(-2 * log 4 / log(1/4)) = 2`. -/
theorem Nd_at_p2_conf : Nd 2 1 4 (1/4) = 2 := by
  have hlog4 : Real.log (1/4 : ℝ) = -Real.log 4 := by
    rw [one_div, Real.log_inv]
  have hl4 : (0:ℝ) < Real.log 4 := Real.log_pos (by norm_num)
  have hval : (-2 * Real.log ((4:ℝ) / 1) / Real.log (1/4 : ℝ)) = 2 := by
    rw [show ((4:ℝ)/1) = 4 by norm_num, hlog4]
    field_simp
  unfold Nd
  rw [hval]
  norm_num

/-- Claim C5 counterexample: at the concrete valid configuration
`p = 2, R_BLR = 1, Rmax = 4, sens = 1/4` (where `Nd = 2`), the
domain-boundary radius array has `Nd = 2` entries, not the `Nd + 1 = 3`
entries the claim prescribes: the source calls `np.linspace(0, Nd, Nd)`,
which returns `Nd` samples. -/
theorem r_list_length_counterexample :
    (r_list 1 (1/4) 2 ((Nd 2 1 4 (1/4)).toNat)).length ≠ (Nd 2 1 4 (1/4)).toNat + 1 := by
  rw [Nd_at_p2_conf]
  norm_num [r_list, List.length_map, linspace_length]

/-- Claim C5 (amended): for every configuration with domain count `n ≥ 2`,
the radius array computed by the grid builder has exactly `n` entries (not
`n + 1`), and its `i`-th entry equals `R_BLR * sens^(-(n*i/(n-1))/p)` for
`i = 0..n-1` — the `np.linspace(0, Nd, Nd)` grid has fractional step
`Nd/(Nd-1)`, not the unit step the claim prescribes. -/
theorem r_list_spec (R_BLR sens p : ℝ) (n : ℕ) (hn : 2 ≤ n) :
    (r_list R_BLR sens p n).length = n ∧
    ∀ i : ℕ, i < n →
      (r_list R_BLR sens p n).getD i 0 =
        R_BLR * sens ^ (-(((n : ℝ) * i / ((n : ℝ) - 1)) / p)) := by
  match n, hn with
  | (m + 2), _ =>
    constructor
    · simp [r_list, linspace, List.length_map, List.length_range]
    · intro i hi
      have hget : (r_list R_BLR sens p (m + 2)).getD i 0 =
          R_BLR * sens ^ (-(0 + ((m + 2 : ℕ) - 0) * (i : ℝ) / ((m : ℝ) + 1)) / p) := by
        simp only [r_list, linspace, List.map_map, List.getD_eq_getElem?_getD,
          List.getElem?_map, List.getElem?_range hi]
        simp
      rw [hget]
      congr 1
      push_cast
      have hm : ((m : ℝ) + 1) ≠ 0 := by positivity
      field_simp
      ring_nf

/-- Claim C5 witness: the amended theorem applied at the concrete
configuration `R_BLR = 1, sens = 1/4, p = 2` with `n = 2` domains. -/
theorem r_list_spec_witness :
    (r_list 1 (1/4) 2 2).length = 2 ∧
    ∀ i : ℕ, i < 2 →
      (r_list 1 (1/4) 2 2).getD i 0 =
        1 * (1/4 : ℝ) ^ (-((((2:ℕ) : ℝ) * i / (((2:ℕ) : ℝ) - 1)) / 2)) :=
  r_list_spec 1 (1/4) 2 2 (by norm_num)

/-- The `np.linspace(1., Nd, Nd)` grid used for the coherence lengths is the
integer grid `[1, 2, ..., Nd]`. -/
theorem linspace_one_ints (n : ℕ) :
    linspace 1 (n : ℝ) n = (List.range n).map (fun i : ℕ => (i : ℝ) + 1) := by
  match n with
  | 0 => rfl
  | 1 => norm_num [linspace, List.range_succ, List.range_zero]
  | (m + 2) =>
    simp only [linspace]
    apply List.map_congr_left
    intro i hi
    push_cast
    have hm : ((m : ℝ) + 1) ≠ 0 := by positivity
    field_simp
    ring

/-- Summing a mapped `List.range` equals the corresponding `Finset.range` sum. -/
theorem sum_range_map (f : ℕ → ℝ) (n : ℕ) :
    ((List.range n).map f).sum = ∑ i in Finset.range n, f i := by
  induction n with
  | zero => simp
  | succ k ih =>
    rw [List.range_succ, List.map_append, List.sum_append, Finset.sum_range_succ, ih]
    simp

/-- Concrete real-power evaluation: `(1/4) ^ (-1/2) = 2`. -/
theorem quarter_rpow_neg_half : ((1/4 : ℝ)) ^ (-(1/2) : ℝ) = 2 := by
  have h14 : ((1/4 : ℝ)) = (2:ℝ) ^ (-2 : ℝ) := by
    rw [show ((-2:ℝ)) = ((-2:ℤ):ℝ) by norm_num, Real.rpow_intCast]
    norm_num
  rw [h14, ← Real.rpow_mul (by norm_num : (0:ℝ) ≤ 2)]
  rw [show ((-2:ℝ) * -(1/2)) = 1 by norm_num, Real.rpow_one]

/-- Concrete real-power evaluation: `(1/4) ^ (-1) = 4`. -/
theorem quarter_rpow_neg_one : ((1/4 : ℝ)) ^ (-1 : ℝ) = 4 := by
  rw [show ((-1:ℝ)) = ((-1:ℤ):ℝ) by norm_num, Real.rpow_intCast]
  norm_num

/-- Claim C4 counterexample: at the concrete valid configuration
`p = 2, R_BLR = 1, Rmax = 4, sens = 1/4` (so `Nd = 2`), the coherence
lengths are `[3/2, 3]` and sum to `9/2`, while `Rmax - R_BLR = 3`: the
relative deviation is exactly 50 percent, so the sum does not approximate
`Rmax - R_BLR` within a small relative tolerance (here refuted at 25
percent); the geometric-series identity behind the claim holds only for
`p = 1`. -/
theorem sumLcoh_counterexample :
    (Lcoh_list 1 (1/4) 2 ((Nd 2 1 4 (1/4)).toNat)).sum = 9/2 ∧
    ¬ |(Lcoh_list 1 (1/4) 2 ((Nd 2 1 4 (1/4)).toNat)).sum - ((4:ℝ) - 1)| ≤ ((4:ℝ) - 1) / 4 := by
  have hsum : (Lcoh_list 1 (1/4) 2 ((Nd 2 1 4 (1/4)).toNat)).sum = 9/2 := by
    rw [Nd_at_p2_conf]
    show (Lcoh_list 1 (1/4) 2 2).sum = 9/2
    simp only [Lcoh_list]
    rw [linspace_one_ints 2, List.map_map, sum_range_map]
    rw [Finset.sum_range_succ, Finset.sum_range_succ, Finset.sum_range_zero]
    simp only [Function.comp]
    push_cast
    rw [show (-(((0:ℝ)) + 1) / 2) = (-(1/2) : ℝ) by norm_num]
    rw [show (-(((1:ℝ)) + 1) / 2) = (-1 : ℝ) by norm_num]
    rw [quarter_rpow_neg_half, quarter_rpow_neg_one]
    norm_num
  refine ⟨hsum, ?_⟩
  rw [hsum]
  rw [show |(9/2 : ℝ) - (4 - 1)| = 3/2 by rw [abs_of_pos] <;> norm_num]
  norm_num

/-- Claim C4 (amended): for `p = 1` the sum of the coherence lengths over
all `Nd` domains telescopes exactly to `R_BLR * (sens^(-Nd) - 1)`, which
lies in the interval `[Rmax - R_BLR, Rmax/sens - R_BLR)`: it overshoots
`Rmax - R_BLR` by at most `Rmax * (1 - sens) / sens` (small only when `sens`
is close to 1), and for `p ≠ 1` the geometric-series identity fails. -/
theorem sumLcoh_p_one (R_BLR Rmax sens : ℝ) (n : ℕ)
    (hR : 0 < R_BLR) (hRm : R_BLR < Rmax) (hs0 : 0 < sens) (hs1 : sens < 1)
    (hn : n = (Nd 1 R_BLR Rmax sens).toNat) :
    (Lcoh_list R_BLR sens 1 n).sum = R_BLR * (sens ^ (-(n : ℝ)) - 1) ∧
    Rmax - R_BLR ≤ (Lcoh_list R_BLR sens 1 n).sum ∧
    (Lcoh_list R_BLR sens 1 n).sum < Rmax / sens - R_BLR := by
  have key : ∀ i : ℕ, R_BLR * sens ^ (-((i:ℝ) + 1) / 1) * (1 - sens)
      = R_BLR * sens ^ (-(((i+1:ℕ)):ℝ)) - R_BLR * sens ^ (-((i:ℕ):ℝ)) := by
    intro i
    have hgx : sens ^ (-((i:ℝ) + 1)) * sens = sens ^ (-((i:ℝ))) := by
      have h := Real.rpow_add hs0 (-((i:ℝ) + 1)) 1
      rw [Real.rpow_one] at h
      rw [← h]
      norm_num
    rw [div_one]
    push_cast
    linear_combination (-R_BLR) * hgx
  have hsum : (Lcoh_list R_BLR sens 1 n).sum = R_BLR * (sens ^ (-(n : ℝ)) - 1) := by
    simp only [Lcoh_list]
    rw [linspace_one_ints n, List.map_map, sum_range_map]
    simp only [Function.comp]
    rw [Finset.sum_congr rfl (fun i _ => key i)]
    rw [Finset.sum_range_sub (fun k : ℕ => R_BLR * sens ^ (-(k:ℝ)))]
    norm_num [Real.rpow_zero]
    ring
  have hc : Real.log sens < 0 := Real.log_neg hs0 hs1
  have hratio1 : 1 < Rmax / R_BLR := (one_lt_div hR).mpr hRm
  have hratio0 : 0 < Rmax / R_BLR := lt_trans one_pos hratio1
  have hla : 0 < Real.log (Rmax / R_BLR) := Real.log_pos hratio1
  have hveq : (-1 * Real.log (Rmax / R_BLR) / Real.log sens : ℝ)
      = Real.log (Rmax / R_BLR) / (-Real.log sens) := by
    rw [div_neg, neg_one_mul, neg_div]
  have hv0 : (0:ℝ) < -1 * Real.log (Rmax / R_BLR) / Real.log sens := by
    rw [hveq]
    exact div_pos hla (by linarith)
  have hNdeq : Nd 1 R_BLR Rmax sens = ⌈(-1 * Real.log (Rmax / R_BLR) / Real.log sens : ℝ)⌉ := by
    unfold Nd
    norm_num
  have hceil0 : 0 < Nd 1 R_BLR Rmax sens := by
    rw [hNdeq]
    exact Int.ceil_pos.mpr hv0
  have hncast : (n:ℝ) = ((Nd 1 R_BLR Rmax sens : ℤ) : ℝ) := by
    rw [hn]
    exact_mod_cast congrArg (fun z : ℤ => (z : ℝ)) (Int.toNat_of_nonneg hceil0.le)
  have hvn : (-1 * Real.log (Rmax / R_BLR) / Real.log sens : ℝ) ≤ (n:ℝ) := by
    rw [hncast, hNdeq]
    exact Int.le_ceil _
  have hvn1 : (n:ℝ) < (-1 * Real.log (Rmax / R_BLR) / Real.log sens : ℝ) + 1 := by
    rw [hncast, hNdeq]
    exact Int.ceil_lt_add_one _
  have hprod : (-1 * Real.log (Rmax / R_BLR) / Real.log sens : ℝ) * (-Real.log sens)
      = Real.log (Rmax / R_BLR) := by
    rw [hveq]
    field_simp [ne_of_lt hc]
  have key1 : Rmax / R_BLR ≤ sens ^ (-(n:ℝ)) := by
    rw [Real.rpow_def_of_pos hs0]
    have h1 : Real.log (Rmax / R_BLR) ≤ Real.log sens * (-(n:ℝ)) := by
      nlinarith [hvn, hc, hprod]
    calc Rmax / R_BLR = Real.exp (Real.log (Rmax / R_BLR)) := (Real.exp_log hratio0).symm
      _ ≤ Real.exp (Real.log sens * (-(n:ℝ))) := Real.exp_le_exp.mpr h1
  have key2 : sens ^ (-(n:ℝ)) < (Rmax / R_BLR) / sens := by
    rw [Real.rpow_def_of_pos hs0]
    have h1 : Real.log sens * (-(n:ℝ)) < Real.log (Rmax / R_BLR) - Real.log sens := by
      nlinarith [hvn1, hc, hprod]
    have h3 : (Rmax / R_BLR) / sens = Real.exp (Real.log (Rmax / R_BLR) - Real.log sens) := by
      rw [Real.exp_sub, Real.exp_log hratio0, Real.exp_log hs0]
    rw [h3]
    exact Real.exp_lt_exp.mpr h1
  have hcan : Rmax / R_BLR * R_BLR = Rmax := div_mul_cancel₀ Rmax (ne_of_gt hR)
  have hcan2 : Rmax / R_BLR / sens * R_BLR = Rmax / sens := by
    field_simp
    ring
  refine ⟨hsum, ?_, ?_⟩
  · rw [hsum]
    nlinarith [key1, hR, hcan]
  · rw [hsum]
    nlinarith [key2, hR, hcan2]

/-- Claim C4 witness: the amended theorem applied at the concrete
configuration `p = 1, R_BLR = 1, Rmax = 2, sens = 1/2`. -/
theorem sumLcoh_p_one_witness :
    (Lcoh_list 1 (1/2) 1 ((Nd 1 1 2 (1/2)).toNat)).sum
        = 1 * ((1/2:ℝ) ^ (-(((Nd 1 1 2 (1/2)).toNat : ℕ) : ℝ)) - 1) ∧
    (2:ℝ) - 1 ≤ (Lcoh_list 1 (1/2) 1 ((Nd 1 1 2 (1/2)).toNat)).sum ∧
    (Lcoh_list 1 (1/2) 1 ((Nd 1 1 2 (1/2)).toNat)).sum < 2 / (1/2) - 1 :=
  sumLcoh_p_one 1 2 (1/2) _ (by norm_num) (by norm_num) (by norm_num) (by norm_num) rfl
